import Mathlib

/-!
Verification of the adaptive mesh-point generator of `pytRIBS`
(`src/pytRIBS/mesh/mesh.py`, class `GenerateMesh`).

The Python pipeline is shallowly embedded over exact rationals:

* raster elevations and wavelet detail subbands become `List (List ℚ)`;
* `(x, y)` points become `ℚ × ℚ`;
* the external geometry library (shapely) is abstracted by two parameters of
  the model: a point-in-polygon test for the original watershed polygon
  (`containsOrig`, the `shapely.vectorized.contains` call) and the composite
  buffer-and-resample operation that yields the candidate boundary ring points
  for a given buffer distance (`boundaryCandidates`); a stream polyline
  (shapely `LineString`) is abstracted by its arc length together with its
  arc-length interpolation function;
* Euclidean distances produced by the `cKDTree` spatial index are tracked as
  squared distances: the code only ever compares distances with each other or
  with the (nonnegative) raster resolution, and squaring is monotone on
  nonnegative reals, so every comparison made by the code is preserved exactly
  while staying inside `ℚ`;
* `inf` values that `cKDTree.query` returns for missing neighbours become `⊤`
  in `WithTop ℚ`;
* operations that raise a Python exception are modelled in `Except PyErr`;
  in particular `scipy.spatial.cKDTree` raises `ValueError` when handed the
  1-dimensional array `np.array([])` that an empty point set produces, and
  that is the only failure the pipeline paths exercised here can hit;
* NumPy's `0.0 / 0.0 = nan` (with `nan > t` false) is modelled by Lean's
  junk value `0 / 0 = 0` together with the hypothesis `0 < τ` where it
  matters: for a positive threshold both conventions make the significance
  test false, which is the behaviour the claims exercise.

The Python `set` accumulating significant cells across levels is modelled as
first-occurrence deduplication of the row-major traversal; every order
property proved below is independent of the (unspecified) CPython set order.
-/

/-- A planar point `(x, y)`. -/
abbrev Pt : Type := ℚ × ℚ

/-- Errors surfaced by the Python code paths modelled here.
`valueError` stands for the `ValueError` that `scipy.spatial.cKDTree`
raises on 1-dimensional (in particular empty) input data, `indexError`
for an out-of-range indexing, and `loopLimit` for the (unreachable, see
`stream_walk`) exhaustion of the walk's fuel. -/
inductive PyErr : Type
  | valueError : PyErr
  | indexError : PyErr
  | loopLimit : PyErr
deriving DecidableEq, Repr

/-- Squared Euclidean distance; stands in for the distances computed by
`cKDTree`/`np.linalg.norm` (see the module docstring). -/
def sqDist (p q : Pt) : ℚ := (p.1 - q.1) ^ 2 + (p.2 - q.2) ^ 2

/-- Model of `np.max` over a list of rationals; `0` on the empty list (the Python
code never takes a max of an empty array on the paths modelled here, and
every list this is applied to consists of absolute values, so the junk
base `0` never changes a nonempty result). -/
def maxOfList (l : List ℚ) : ℚ := l.foldr max 0

/-- Row-major flattening of a matrix. -/
def flatMat (m : List (List ℚ)) : List ℚ := m.foldr (· ++ ·) []

/-- First-occurrence deduplication with respect to a key, carrying the set of
keys already seen.  Models both the Python `set()` accumulation of centers
(key = the point itself) and the `np.unique(..., return_index=True)` choice
of the first occurrence of each coordinate. -/
def firstDedupByAux {α β : Type} (key : α → β) [DecidableEq β] :
    List α → List β → List α
  | [], _ => []
  | a :: l, seen =>
    if key a ∈ seen then firstDedupByAux key l seen
    else a :: firstDedupByAux key l (key a :: seen)

/-- First-occurrence deduplication by a key. -/
def firstDedupBy {α β : Type} (key : α → β) [DecidableEq β] (l : List α) :
    List α := firstDedupByAux key l []

/-- First-occurrence deduplication of a list. -/
def firstDedup {α : Type} [DecidableEq α] (l : List α) : List α :=
  firstDedupBy id l

/-- Row-major list of the cells of an `r × c` subband,
mirroring the traversal order of `np.where`. -/
def cellProd (r c : ℕ) : List (ℕ × ℕ) :=
  (List.range r).foldr (fun i acc => ((List.range c).map fun j => (i, j)) ++ acc) []

/-- One level of the 2-D wavelet packet decomposition: the vertical,
horizontal and diagonal detail subbands (`wavelet_packet['v'*level]` etc.). -/
structure SubLevel : Type where
  v : List (List ℚ)
  h : List (List ℚ)
  d : List (List ℚ)
deriving DecidableEq, Repr

/-- A stream polyline, abstracting a shapely `LineString` by the two
attributes the code reads: its arc `length` and the arc-length interpolation
`line.interpolate` (shapely clamps arguments beyond the length to the far
endpoint; concrete instances below do the same). -/
structure StreamLine : Type where
  length : ℚ
  interp : ℚ → Pt

/-- The state of a `GenerateMesh` object after `__init__`:
the wavelet pyramid and raster data/georeferencing read from the raster, the
abstracted watershed geometry operations, the stream network and the outlet.
`ta, tc, te, tf` are `transform[0], transform[2], transform[4], transform[5]`
(x-cell size, x-origin, y-cell size (negative for north-up rasters),
y-origin). -/
structure MeshModel : Type where
  pyramid : List SubLevel
  boundsLeft : ℚ
  boundsRight : ℚ
  boundsBottom : ℚ
  boundsTop : ℚ
  data : List (List ℚ)
  ta : ℚ
  tc : ℚ
  te : ℚ
  tf : ℚ
  containsOrig : Pt → Bool
  boundaryCandidates : WithTop ℚ → List Pt
  streamLines : List StreamLine
  outlet : Pt

/-- Elementwise `np.max(np.abs([v, h, d]), axis=0)` of one level
(`find_max_maximum_coeffs`, line 346). -/
def elemMax3Abs (lvl : SubLevel) : List (List ℚ) :=
  List.zipWith (List.zipWith max)
    (List.zipWith (List.zipWith max)
      (lvl.v.map (List.map abs)) (lvl.h.map (List.map abs)))
    (lvl.d.map (List.map abs))

/-- Embeds `GenerateMesh.find_max_maximum_coeffs` (lines 340-348): per level the
maximum of the elementwise maximum of `|v|, |h|, |d|`, then the maximum over
levels. -/
def find_max_maximum_coeffs (pyramid : List SubLevel) : ℚ :=
  maxOfList (pyramid.map fun lvl => maxOfList (flatMat (elemMax3Abs lvl)))

/-- Model of `self.normalizing_coeff`, set in `extract_raster_and_wavelet_info`
(line 319). -/
def normalizing_coeff (M : MeshModel) : ℚ := find_max_maximum_coeffs M.pyramid

/-- The number of rows of the level-`level` subbands (`r` of `v.shape`,
line 421). -/
def levelRows (M : MeshModel) (level : ℕ) : ℕ :=
  ((M.pyramid.getD (level - 1) ⟨[], [], []⟩).v).length

/-- The number of columns of the level-`level` subbands (`c` of `v.shape`,
line 421). -/
def levelCols (M : MeshModel) (level : ℕ) : ℕ :=
  (((M.pyramid.getD (level - 1) ⟨[], [], []⟩).v).headD []).length

/-- Model of `np.maximum.reduce([np.abs(v), np.abs(h), np.abs(d)])` at one cell
(line 425). -/
def cellMaxAbs (lvl : SubLevel) (r c : ℕ) : ℚ :=
  max (abs ((lvl.v.getD r []).getD c 0))
    (max (abs ((lvl.h.getD r []).getD c 0)) (abs ((lvl.d.getD r []).getD c 0)))

/-- The level-dependent factor `2 ** (-level + 1)` of the significance test
(line 426); for every `level` the Python value equals `2 / 2 ^ level`. -/
def levelScale (level : ℕ) : ℚ := 2 / 2 ^ level

/-- Embeds `GenerateMesh._process_level` (lines 416-432): the geographic coordinates
of the cells of level `level` whose normalized maximal detail coefficient
exceeds the level-scaled threshold, in the row-major order of `np.where`. -/
def process_level (M : MeshModel) (level : ℕ) (threshold : ℚ) : List Pt :=
  let lvl := M.pyramid.getD (level - 1) ⟨[], [], []⟩
  let r := lvl.v.length
  let c := (lvl.v.headD []).length
  let dx := (M.boundsRight - M.boundsLeft) / (c : ℚ)
  let dy := (M.boundsTop - M.boundsBottom) / (r : ℚ)
  ((cellProd r c).filter fun rc =>
      decide (cellMaxAbs lvl rc.1 rc.2 / normalizing_coeff M >
        levelScale level * threshold)).map
    fun rc => (M.boundsLeft + (rc.2 : ℚ) * dx, M.boundsTop - (rc.1 : ℚ) * dy)

/-- The accumulation loop of `extract_points_from_significant_details`
(lines 352-356): the union over levels `1..maxlevel` of the significant
cells' coordinates.  The Python `set` is modelled by first-occurrence
deduplication of the level-by-level row-major enumeration (the set's
enumeration order is unspecified in CPython; no order-dependent property
is claimed of it here). -/
def significantCenters (M : MeshModel) (threshold : ℚ) : List Pt :=
  firstDedup
    ((List.range M.pyramid.length).foldr
      (fun i acc => process_level M (i + 1) threshold ++ acc) [])

/-- The global maximum absolute detail value over all levels and subbands,
written directly as the spec/claim phrases it ("normalizingCoefficient is
the global maximum absolute detail value over all levels and subbands");
compared with the source-shaped `find_max_maximum_coeffs` in claim C4. -/
def global_max_abs_detail (pyramid : List SubLevel) : ℚ :=
  maxOfList
    (pyramid.foldr
      (fun lvl acc =>
        (flatMat lvl.v).map abs ++ (flatMat lvl.h).map abs ++
          (flatMat lvl.d).map abs ++ acc)
      [])

/-- All three subbands of a level have the shape of `v`
(guaranteed by `pywt` for the levels of a `WaveletPacket2D`). -/
def WellShaped (lvl : SubLevel) : Prop :=
  lvl.h.map List.length = lvl.v.map List.length ∧
    lvl.d.map List.length = lvl.v.map List.length

instance (lvl : SubLevel) : Decidable (WellShaped lvl) := by
  unfold WellShaped; infer_instance

/-- Half of a `WithTop ℚ` value (`⊤ / 2 = ⊤`), as used by `np.median`'s
averaging of the two middle elements, where `inf` propagates. -/
def halveW (x : WithTop ℚ) : WithTop ℚ := WithTop.map (· / 2) x

/-- Model of `np.max` over a nonempty list of `WithTop ℚ` values (`0` junk base on
the empty list, never taken by the modelled paths). -/
def maxW (l : List (WithTop ℚ)) : WithTop ℚ :=
  match l with
  | [] => 0
  | a :: t => t.foldl max a

/-- Model of `np.median` of a list of `WithTop ℚ` values: sort, then take the middle
element (odd length) or average the two middle elements (even length). -/
def medianW (l : List (WithTop ℚ)) : WithTop ℚ :=
  let s := List.insertionSort (· ≤ ·) l
  if l.length % 2 = 1 then s.getD (l.length / 2) ⊤
  else halveW (s.getD (l.length / 2 - 1) ⊤ + s.getD (l.length / 2) ⊤)

/-- The sorted distances returned by `tree.query(p, k)` against a tree built
over `pts` (the query point itself is among `pts`, so a `0` distance is
included): the `k` smallest squared distances from `p` to `pts`, padded with
`⊤` ("missing neighbors are indicated with infinite distances") when `pts`
has fewer than `k` points. -/
def kNearestSq (pts : List Pt) (p : Pt) (k : ℕ) : List (WithTop ℚ) :=
  let s : List ℚ := List.insertionSort (· ≤ ·) (pts.map (sqDist p))
  List.map (fun (q : ℚ) => (q : WithTop ℚ)) (s.take k) ++
    List.replicate (k - pts.length) (⊤ : WithTop ℚ)

/-- Embeds `GenerateMesh._distance_to_nearest_n` (lines 434-453).
`cKDTree(points_array)` raises `ValueError` on the 1-dimensional array an
empty point list produces; otherwise `tree.query(points_array, k=n+1)`
returns the per-point sorted neighbour distances (inf-padded, never an
error, even when fewer than `n+1` points exist), and the function returns
`(max over ranks of the per-rank median, max of all distances)`. -/
def distance_to_nearest_n (points : List Pt) (n : ℕ) :
    Except PyErr (WithTop ℚ × WithTop ℚ) :=
  if points.isEmpty then .error .valueError
  else
    let k := n + 1
    let distances := points.map fun p => kNearestSq points p k
    let median_distance :=
      maxW ((List.range k).map fun j =>
        medianW (distances.map fun row => row.getD j ⊤))
    let max_distance := maxW (distances.foldr (· ++ ·) [])
    .ok (median_distance, max_distance)

/-- The smallest squared distance from `p` to a vertex of `verts`
(`tree.query(p, k=1)` with the tree built over `verts`; junk `0` on an
empty vertex list, which the modelled paths never query). -/
def minSqDistTo (verts : List Pt) (p : Pt) : ℚ :=
  match verts.map (sqDist p) with
  | [] => 0
  | a :: t => t.foldl min a

/-- The densified vertices of one stream polyline (lines 502-504):
`line.interpolate(i * dem_res)` for `i = 0 .. ceil(length / res)`. -/
def densify_line (res : ℚ) (line : StreamLine) : List Pt :=
  (List.range (⌈line.length / res⌉ + 1).toNat).map fun i => line.interp (i * res)

/-- The vertex indices of `xy` sorted by squared distance from `cur`
(ties by index), i.e. the index array returned by
`stream_tree.query(working_stream_pts[0], k=len(stream_xy))`; scipy leaves
the order of exact ties unspecified, the model fixes index order. -/
def sortIdxByDist (xy : List Pt) (cur : Pt) : List ℕ :=
  List.insertionSort
    (fun i j => sqDist cur (xy.getD i (0, 0)) < sqDist cur (xy.getD j (0, 0)) ∨
      (sqDist cur (xy.getD i (0, 0)) = sqDist cur (xy.getD j (0, 0)) ∧ i ≤ j))
    (List.range xy.length)

/-- The `while distance > dis_interior` walk of
`_generate_points_along_stream` (lines 526-547).  `fuel` bounds the number
of iterations: a run entering the loop body strictly increases `idx_last`
(or raises), so `xy.length + 1` fuel is never exhausted on a terminating
Python run; a run on which Python would loop forever (only possible when
`ids[-1] == idx_last`, which the popping of near-stream interior points
rules out) answers `loopLimit`.  `indexError` is Python's `IndexError` on
`ids[ids > idx_last][-1]` when that slice is empty. -/
def stream_walk (xy : List Pt) (endP : Pt) (interior : List Pt) :
    ℕ → Pt → ℕ → List Pt → Except PyErr (List Pt)
  | 0, _, _, _ => .error .loopLimit
  | fuel + 1, cur, idxLast, acc =>
    if minSqDistTo interior cur < sqDist cur endP then
      let disInterior := minSqDistTo interior cur
      let ids := (sortIdxByDist xy cur).filter
        (fun i => decide (sqDist cur (xy.getD i (0, 0)) < disInterior))
      match ids.getLast? with
      | none => .ok acc
      | some idNext =>
        let idNext2 :=
          if idNext < idxLast then (ids.filter (fun j => idxLast < j)).getLast?
          else some idNext
        match idNext2 with
        | none => .error .indexError
        | some k =>
          stream_walk xy endP interior fuel (xy.getD k (0, 0)) k
            (acc ++ [xy.getD k (0, 0)])
    else .ok acc

/-- The per-polyline body of `_generate_points_along_stream`
(lines 498-550): densify the line, splice the interior points within `res`
of a densified vertex into the output (in descending index order) while
removing them from the working set (rebuilding the interior index, which
raises `ValueError` exactly when the reduced set is empty), then walk the
line.  Returns the stream points of this line and the reduced interior
set. -/
def gen_line (res : ℚ) (coords : List Pt) (line : StreamLine) :
    Except PyErr (List Pt × List Pt) :=
  match densify_line res line with
  | [] => .error .indexError
  | b :: rest =>
    let xy := b :: rest
    let endP := xy.getLastD (0, 0)
    let isClose : Pt → Bool := fun p => decide (minSqDistTo xy p ≤ res ^ 2)
    let popped := (coords.filter isClose).reverse
    let coords2 := coords.filter fun p => ! isClose p
    if !popped.isEmpty && coords2.isEmpty then .error .valueError
    else
      match stream_walk xy endP coords2 (xy.length + 1) b 0 (b :: popped) with
      | .error e => .error e
      | .ok temp => .ok (temp ++ [endP], coords2)

/-- The `for idx, row in stream.iterrows()` loop of
`_generate_points_along_stream`, threading the (destructively reduced)
interior working set through the lines and concatenating the per-line
stream points. -/
def gen_lines (res : ℚ) : List StreamLine → List Pt → List Pt →
    Except PyErr (List Pt)
  | [], _, acc => .ok acc
  | l :: ls, coords, acc =>
    match gen_line res coords l with
    | .error e => .error e
    | .ok (pts, coords2) => gen_lines res ls coords2 (acc ++ pts)

/-- Embeds `GenerateMesh._generate_points_along_stream` (lines 485-552).  The
initial `cKDTree(coords)` raises `ValueError` when `coords` is empty (the
caller passes `np.array(list(set()))`, a 1-dimensional empty array).  Note
the function returns ONLY the stream points; the popped interior points are
removed from a local working copy and the reduction is never handed back to
the caller. -/
def generate_points_along_stream (res : ℚ) (lines : List StreamLine)
    (coords : List Pt) : Except PyErr (List Pt) :=
  if coords.isEmpty then .error .valueError
  else gen_lines res lines coords []

/-- Embeds `GenerateMesh._filter_coords_within_geometry` (lines 381-414), with the
shapely buffering/resampling abstracted by `M.boundaryCandidates` (which
maps the buffer distance to the `num_boundary_points` resampled points of
the buffered exterior ring): interior coordinates are kept exactly when the
original watershed polygon contains them (code 0), candidate boundary
points are kept exactly when it does not (code 1), and the two groups are
stacked interior-first.  Returns `(all_coords, all_boundary_codes)`. -/
def filter_coords_within_geometry (M : MeshModel) (coords : List Pt)
    (buffer_distance : WithTop ℚ) : List Pt × List ℚ :=
  let interior := coords.filter M.containsOrig
  let boundary := (M.boundaryCandidates buffer_distance).filter
    fun p => ! M.containsOrig p
  (interior ++ boundary,
    List.replicate interior.length 0 ++ List.replicate boundary.length 1)

/-- Lexicographic (x, then y, then first-occurrence) row order used by
`np.unique(..., axis=0)`, which sorts the two-column rows as structured
records field by field. -/
def rowLe (a b : Pt × ℚ) : Prop :=
  a.1.1 < b.1.1 ∨ (a.1.1 = b.1.1 ∧ a.1.2 ≤ b.1.2)

instance : DecidableRel rowLe := fun a b => by unfold rowLe; infer_instance

instance : IsTotal (Pt × ℚ) rowLe := by
  constructor
  intro a b
  rcases lt_trichotomy a.1.1 b.1.1 with h | h | h
  · exact Or.inl (Or.inl h)
  · rcases le_total a.1.2 b.1.2 with h2 | h2
    · exact Or.inl (Or.inr ⟨h, h2⟩)
    · exact Or.inr (Or.inr ⟨h.symm, h2⟩)
  · exact Or.inr (Or.inl h)

instance : IsTrans (Pt × ℚ) rowLe := by
  constructor
  rintro a b c (hab | ⟨hab, hab2⟩) (hbc | ⟨hbc, hbc2⟩)
  · exact Or.inl (hab.trans hbc)
  · exact Or.inl (hbc ▸ hab)
  · exact Or.inl (hab ▸ hbc)
  · exact Or.inr ⟨hab.trans hbc, hab2.trans hbc2⟩

/-- Model of `np.unique(centers, axis=0, return_index=True)` followed by
`boundary_codes[unique_indices]` (lines 373-375): the distinct coordinate
rows in ascending lexicographic order, each carrying the boundary code of
its first occurrence in the stacked array (the stable `mergesort` argsort
used with `return_index=True` picks the first occurrence). -/
def npUniqueRows (z : List (Pt × ℚ)) : List (Pt × ℚ) :=
  List.insertionSort rowLe (firstDedupBy Prod.fst z)

/-- Strict ascending lexicographic order on coordinates, x first. -/
def lexLt (p q : Pt) : Prop := p.1 < q.1 ∨ (p.1 = q.1 ∧ p.2 < q.2)

/-- One axis of `RegularGridInterpolator`: for a uniform grid of `m` nodes
`o, o + step, o + 2·step, …` locate the query `q`, clamping the cell index
into `[0, m-2]` (this is what `fill_value=None` extrapolation does) and
returning the cell index together with the unclamped normalized coordinate
(outside `[0, 1]` beyond the grid). -/
def locate (step o : ℚ) (m : ℕ) (q : ℚ) : ℤ × ℚ :=
  let u := (q - o) / step
  let i := max 0 (min ((m : ℤ) - 2) ⌊u⌋)
  (i, u - (i : ℚ))

/-- Raster value at integer cell indices (in-range on all modelled paths). -/
def getCell (data : List (List ℚ)) (i j : ℤ) : ℚ :=
  (data.getD i.toNat []).getD j.toNat 0

/-- Embeds `GenerateMesh.interpolate_elevations` at one point (lines 471-483):
`RegularGridInterpolator((y, x), data, method='linear', bounds_error=False,
fill_value=None)` evaluated at `(p.y, p.x)`, i.e. bilinear interpolation on
the uniform grids `x_i = i·ta + tc`, `y_j = j·te + tf`, with linear
extrapolation (not clamping) of the nearest cell beyond the grid. -/
def bilinear (M : MeshModel) (p : Pt) : ℚ :=
  let height := M.data.length
  let width := (M.data.headD []).length
  let jx := locate M.ta M.tc width p.1
  let iy := locate M.te M.tf height p.2
  (1 - iy.2) *
      ((1 - jx.2) * getCell M.data iy.1 jx.1 + jx.2 * getCell M.data iy.1 (jx.1 + 1)) +
    iy.2 *
      ((1 - jx.2) * getCell M.data (iy.1 + 1) jx.1 +
        jx.2 * getCell M.data (iy.1 + 1) (jx.1 + 1))

/-- Embeds `GenerateMesh.interpolate_elevations` over a point list. -/
def interpolate_elevations (M : MeshModel) (points : List Pt) : List ℚ :=
  points.map (bilinear M)

/-- Lines 352-371 of `extract_points_from_significant_details`: the stacked
coordinate/code rows handed to the merger (`np.vstack((centers,
stream_points, out_points))` paired with `np.hstack((boundary_codes,
stream_code, out_code))`), i.e. interior-and-boundary points first, then
the stream points (code 3), then the single outlet point (code 2). -/
def mergerInput (M : MeshModel) (threshold : ℚ) :
    Except PyErr (List (Pt × ℚ)) :=
  let centers0 := significantCenters M threshold
  match generate_points_along_stream M.ta M.streamLines centers0 with
  | .error e => .error e
  | .ok stream_points =>
    match distance_to_nearest_n centers0 6 with
    | .error e => .error e
    | .ok md =>
      let fc := filter_coords_within_geometry M centers0 md.1
      .ok ((fc.1 ++ stream_points ++ [M.outlet]).zip
        (fc.2 ++ List.replicate stream_points.length 3 ++ [2]))

/-- Embeds `GenerateMesh.extract_points_from_significant_details` (lines 350-379):
merger input, coordinate deduplication by `np.unique`, then elevation
interpolation; one output row is `(x, y, elevation, boundaryCode)` as in
`np.column_stack((centers, elevations, boundary_codes))`. -/
def extract_points_from_significant_details (M : MeshModel) (threshold : ℚ) :
    Except PyErr (List (ℚ × ℚ × ℚ × ℚ)) :=
  match mergerInput M threshold with
  | .error e => .error e
  | .ok z =>
    .ok ((npUniqueRows z).map fun pc => (pc.1.1, pc.1.2, bilinear M pc.1, pc.2))

/-- An `r × c` zero matrix. -/
def zeros (r c : ℕ) : List (List ℚ) := List.replicate r (List.replicate c 0)

/-- Vertical subband of the concrete example pyramid: a `2 × 26` matrix with
detail value `1` at cells `(0, 25)` and `(1, 1)` and `0` elsewhere. -/
def exV : List (List ℚ) :=
  [(List.range 26).map fun c => if c = 25 then 1 else 0,
   (List.range 26).map fun c => if c = 1 then 1 else 0]

/-- A straight stream polyline from `(0, 0)` to `(10, 0)` (length 10);
`interp` is shapely's `interpolate`, clamped to the far endpoint. -/
def exLine : StreamLine := ⟨10, fun s => (min s 10, 0)⟩

/-- Concrete pipeline input: one wavelet level over the extent
`[0, 104] × [-98, 100]` whose significant cells (for thresholds in
`(1/4, 1]`... at `τ = 1/2`) map to the points `(100, 100)` and `(4, 1)`; a
constant-5 `2 × 2` elevation raster with cell size 2; a watershed
containing every point; no boundary candidates; the single straight stream
line `exLine`; outlet at `(4, 1)` — deliberately coincident with the
interior point `(4, 1)`. -/
def exCM : MeshModel :=
  { pyramid := [⟨exV, zeros 2 26, zeros 2 26⟩]
    boundsLeft := 0
    boundsRight := 104
    boundsBottom := -98
    boundsTop := 100
    data := [[5, 5], [5, 5]]
    ta := 2
    tc := 0
    te := -2
    tf := 2
    containsOrig := fun _ => true
    boundaryCandidates := fun _ => []
    streamLines := [exLine]
    outlet := (4, 1) }

/-- Variant of `exCM` with a nontrivial watershed test (`x ≤ 150`) and two
boundary-ring candidates, one outside the watershed (kept, code 1) and one
inside it (discarded). -/
def exCM2 : MeshModel :=
  { exCM with
    containsOrig := fun p => decide (p.1 ≤ 150)
    boundaryCandidates := fun _ => [(200, 200), (4, 1)] }

/-- The merger input produced by `exCM` at threshold `1/2`: the coordinate
`(4, 1)` enters it three times — as interior point (code 0), as stream
point (code 3, spliced in because it lies within the raster resolution of
the densified stream), and as the outlet (code 2). -/
def exMergerZ : List (Pt × ℚ) :=
  [((100, 100), 0), ((4, 1), 0), ((0, 0), 3), ((4, 1), 3), ((10, 0), 3),
    ((4, 1), 2)]

/-- Pipeline input for the flat-raster scenario: a 4×4 constant raster
(all elevations 10, cell size 1) decomposes into two levels of all-zero
detail subbands, so the normalizing coefficient is 0. -/
def flatM : MeshModel :=
  { pyramid := [⟨zeros 2 2, zeros 2 2, zeros 2 2⟩, ⟨zeros 1 1, zeros 1 1, zeros 1 1⟩]
    boundsLeft := 0
    boundsRight := 4
    boundsBottom := 0
    boundsTop := 4
    data := List.replicate 4 (List.replicate 4 10)
    ta := 1
    tc := 0
    te := -1
    tf := 4
    containsOrig := fun _ => true
    boundaryCandidates := fun _ => []
    streamLines := [exLine]
    outlet := (0, 0) }

/-- A `2 × 2` interpolation grid (nodes `x ∈ {0, 1}`, `y ∈ {1, 0}`) with
elevations `[[0, 1], [2, 3]]`; only the interpolator fields matter. -/
def exM8a : MeshModel :=
  { exCM with data := [[0, 1], [2, 3]], ta := 1, tc := 0, te := -1, tf := 1 }

/-- Like `exM8a` but with elevations `[[0, 1], [0, 1]]`, a grid whose
values all lie in `[0, 1]`. -/
def exM8b : MeshModel :=
  { exM8a with data := [[0, 1], [0, 1]] }


section ListLemmas

variable {α β : Type}

theorem mem_of_mem_firstDedupByAux (key : α → β) [DecidableEq β]
    {x : α} : ∀ {l : List α} {seen : List β},
    x ∈ firstDedupByAux key l seen → x ∈ l
  | [], _, h => by simp [firstDedupByAux] at h
  | a :: l, seen, h => by
    by_cases hk : key a ∈ seen
    · simp only [firstDedupByAux, if_pos hk] at h
      exact List.mem_cons_of_mem a (mem_of_mem_firstDedupByAux key h)
    · simp only [firstDedupByAux, if_neg hk, List.mem_cons] at h
      rcases h with h | h
      · exact h ▸ List.mem_cons_self a l
      · exact List.mem_cons_of_mem a (mem_of_mem_firstDedupByAux key h)

theorem key_not_seen_of_mem_firstDedupByAux (key : α → β) [DecidableEq β]
    {x : α} : ∀ {l : List α} {seen : List β},
    x ∈ firstDedupByAux key l seen → key x ∉ seen
  | [], _, h => by simp [firstDedupByAux] at h
  | a :: l, seen, h => by
    by_cases hk : key a ∈ seen
    · simp only [firstDedupByAux, if_pos hk] at h
      exact key_not_seen_of_mem_firstDedupByAux key h
    · simp only [firstDedupByAux, if_neg hk, List.mem_cons] at h
      rcases h with h | h
      · exact h ▸ hk
      · intro hx
        exact key_not_seen_of_mem_firstDedupByAux key h
          (List.mem_cons_of_mem _ hx)

theorem pairwise_key_ne_firstDedupByAux (key : α → β) [DecidableEq β] :
    ∀ (l : List α) (seen : List β),
    (firstDedupByAux key l seen).Pairwise fun a b => key a ≠ key b
  | [], _ => by simp [firstDedupByAux]
  | a :: l, seen => by
    by_cases hk : key a ∈ seen
    · simpa only [firstDedupByAux, if_pos hk] using
        pairwise_key_ne_firstDedupByAux key l seen
    · simp only [firstDedupByAux, if_neg hk, List.pairwise_cons]
      refine ⟨fun b hb hab => ?_, pairwise_key_ne_firstDedupByAux key l _⟩
      exact key_not_seen_of_mem_firstDedupByAux key hb
        (hab ▸ List.mem_cons_self (key a) seen)

theorem exists_mem_firstDedupByAux (key : α → β) [DecidableEq β]
    {x : α} : ∀ (l : List α) (seen : List β),
    x ∈ l → key x ∉ seen →
    ∃ y ∈ firstDedupByAux key l seen, key y = key x
  | [], _, hx, _ => absurd hx (List.not_mem_nil x)
  | a :: l, seen, hx, hs => by
    by_cases hk : key a ∈ seen
    · simp only [firstDedupByAux, if_pos hk]
      rcases List.mem_cons.mp hx with h | hx'
      · rw [h] at hs
        exact absurd hk hs
      · exact exists_mem_firstDedupByAux key l seen hx' hs
    · simp only [firstDedupByAux, if_neg hk]
      rcases List.mem_cons.mp hx with h | hx'
      · exact ⟨a, List.mem_cons_self _ _, by rw [h]⟩
      · by_cases hax : key x = key a
        · exact ⟨a, List.mem_cons_self _ _, hax.symm⟩
        · obtain ⟨y, hy, hky⟩ := exists_mem_firstDedupByAux key l (key a :: seen) hx'
            (fun hmem => (List.mem_cons.mp hmem).elim hax hs)
          exact ⟨y, List.mem_cons_of_mem _ hy, hky⟩

theorem mem_firstDedup [DecidableEq α] {x : α} {l : List α} :
    x ∈ firstDedup l ↔ x ∈ l := by
  constructor
  · exact fun h => mem_of_mem_firstDedupByAux id h
  · intro h
    obtain ⟨y, hy, hky⟩ :=
      exists_mem_firstDedupByAux id l [] h (by simp)
    exact (show y = x from hky) ▸ hy

theorem nodup_firstDedup [DecidableEq α] (l : List α) :
    (firstDedup l).Nodup :=
  pairwise_key_ne_firstDedupByAux id l []

theorem toFinset_firstDedup [DecidableEq α] (l : List α) :
    (firstDedup l).toFinset = l.toFinset := by
  ext x
  simp [List.mem_toFinset, mem_firstDedup]

theorem length_firstDedup [DecidableEq α] (l : List α) :
    (firstDedup l).length = l.toFinset.card := by
  rw [← toFinset_firstDedup, List.toFinset_card_of_nodup (nodup_firstDedup l)]

theorem mem_foldr_append {f : β → List α} {x : α} :
    ∀ {l : List β}, (x ∈ l.foldr (fun i acc => f i ++ acc) []) ↔ ∃ i ∈ l, x ∈ f i
  | [] => by simp
  | b :: l => by
    simp only [List.foldr_cons, List.mem_append, mem_foldr_append, List.mem_cons]
    constructor
    · rintro (h | ⟨i, hi, hx⟩)
      · exact ⟨b, Or.inl rfl, h⟩
      · exact ⟨i, Or.inr hi, hx⟩
    · rintro ⟨i, rfl | hi, hx⟩
      · exact Or.inl hx
      · exact Or.inr ⟨i, hi, hx⟩

theorem mem_cellProd {r c : ℕ} {rc : ℕ × ℕ} :
    rc ∈ cellProd r c ↔ rc.1 < r ∧ rc.2 < c := by
  unfold cellProd
  rw [mem_foldr_append]
  constructor
  · rintro ⟨i, hi, hx⟩
    obtain ⟨j, hj, rfl⟩ := List.mem_map.mp hx
    exact ⟨List.mem_range.mp hi, List.mem_range.mp hj⟩
  · rintro ⟨h1, h2⟩
    exact ⟨rc.1, List.mem_range.mpr h1,
      List.mem_map.mpr ⟨rc.2, List.mem_range.mpr h2, Prod.mk.eta⟩⟩

theorem le_maxOfList {x : ℚ} : ∀ {l : List ℚ}, x ∈ l → x ≤ maxOfList l
  | a :: t, h => by
    rcases List.mem_cons.mp h with rfl | h'
    · exact le_max_left _ _
    · exact le_trans (le_maxOfList h') (le_max_right _ _)

theorem maxOfList_nonneg : ∀ l : List ℚ, 0 ≤ maxOfList l
  | [] => le_refl 0
  | _ :: t => le_trans (maxOfList_nonneg t) (le_max_right _ _)

theorem maxOfList_append : ∀ a b : List ℚ,
    maxOfList (a ++ b) = max (maxOfList a) (maxOfList b)
  | [], b => (max_eq_right (maxOfList_nonneg b)).symm
  | x :: a, b => by
    simp only [List.cons_append]
    show max x (maxOfList (a ++ b)) = max (max x (maxOfList a)) (maxOfList b)
    rw [maxOfList_append a b, max_assoc]

end ListLemmas

theorem process_level_mono (M : MeshModel) (level : ℕ) {t1 t2 : ℚ}
    (h : t1 ≤ t2) {x : Pt} (hx : x ∈ process_level M level t2) :
    x ∈ process_level M level t1 := by
  simp only [process_level, List.mem_map, List.mem_filter,
    decide_eq_true_eq] at hx ⊢
  obtain ⟨rc, ⟨hmem, hsig⟩, rfl⟩ := hx
  refine ⟨rc, ⟨hmem, ?_⟩, rfl⟩
  have hs : (0 : ℚ) ≤ levelScale level := by unfold levelScale; positivity
  exact lt_of_le_of_lt (mul_le_mul_of_nonneg_left h hs) hsig

/-- Claim C9: for a fixed raster and pyramid, lowering the significance
threshold never decreases the number of extracted wavelet-significant
points: the significant-cell set at the larger threshold is contained in
the one at the smaller threshold, level by level. -/
theorem wavelet_point_count_antitone (M : MeshModel) (t1 t2 : ℚ)
    (h : t1 ≤ t2) :
    (significantCenters M t2).length ≤ (significantCenters M t1).length := by
  unfold significantCenters
  rw [length_firstDedup, length_firstDedup]
  apply Finset.card_le_card
  intro x hx
  rw [List.mem_toFinset, mem_foldr_append] at hx ⊢
  obtain ⟨i, hi, hxi⟩ := hx
  exact ⟨i, hi, process_level_mono M (i + 1) h hxi⟩

/-- Witness for C9: at the concrete pipeline input `exCM`, thresholds
`1/2 ≤ 2`. -/
theorem wavelet_point_count_antitone_witness :
    (1 : ℚ) / 2 ≤ 2 ∧
      (significantCenters exCM 2).length ≤
        (significantCenters exCM (1 / 2)).length :=
  ⟨by norm_num, wavelet_point_count_antitone exCM (1 / 2) 2 (by norm_num)⟩

theorem maxOfList_zipWith_max : ∀ {xs ys : List ℚ},
    xs.length = ys.length →
    maxOfList (List.zipWith max xs ys) = max (maxOfList xs) (maxOfList ys)
  | [], [], _ => by simp [maxOfList]
  | [], _ :: _, h => by simp at h
  | _ :: _, [], h => by simp at h
  | x :: xs, y :: ys, h => by
    simp only [List.zipWith_cons_cons]
    show max (max x y) (maxOfList (List.zipWith max xs ys)) =
      max (max x (maxOfList xs)) (max y (maxOfList ys))
    rw [maxOfList_zipWith_max (by simpa using h), max_max_max_comm]

theorem maxOfList_flatMat_zipWith : ∀ {A B : List (List ℚ)},
    A.map List.length = B.map List.length →
    maxOfList (flatMat (List.zipWith (List.zipWith max) A B)) =
      max (maxOfList (flatMat A)) (maxOfList (flatMat B))
  | [], [], _ => by simp [flatMat, maxOfList]
  | [], _ :: _, h => by simp at h
  | _ :: _, [], h => by simp at h
  | a :: A, b :: B, h => by
    simp only [List.map_cons, List.cons.injEq] at h
    simp only [List.zipWith_cons_cons]
    show maxOfList (List.zipWith max a b ++
        flatMat (List.zipWith (List.zipWith max) A B)) =
      max (maxOfList (a ++ flatMat A)) (maxOfList (b ++ flatMat B))
    rw [maxOfList_append, maxOfList_zipWith_max h.1,
      maxOfList_flatMat_zipWith h.2, maxOfList_append, maxOfList_append,
      max_max_max_comm]

theorem flatMat_map_abs : ∀ A : List (List ℚ),
    flatMat (A.map (List.map abs)) = (flatMat A).map abs
  | [] => rfl
  | a :: A => by
    show List.map abs a ++ flatMat (A.map (List.map abs)) =
      List.map abs (a ++ flatMat A)
    rw [flatMat_map_abs A, List.map_append]

theorem map_length_map_abs (A : List (List ℚ)) :
    (A.map (List.map abs)).map List.length = A.map List.length := by
  simp [List.map_map, Function.comp_def]

theorem map_length_zipWith_max : ∀ {A B : List (List ℚ)},
    A.map List.length = B.map List.length →
    (List.zipWith (List.zipWith max) A B).map List.length = A.map List.length
  | [], [], _ => rfl
  | [], _ :: _, h => by simp at h
  | _ :: _, [], h => by simp at h
  | a :: A, b :: B, h => by
    simp only [List.map_cons, List.cons.injEq] at h
    simp only [List.zipWith_cons_cons, List.map_cons]
    rw [map_length_zipWith_max h.2]
    simp only [List.cons.injEq, and_true]
    rw [List.length_zipWith, h.1, min_self]

theorem level_max_eq (lvl : SubLevel) (hs : WellShaped lvl) :
    maxOfList (flatMat (elemMax3Abs lvl)) =
      max (maxOfList ((flatMat lvl.v).map abs))
        (max (maxOfList ((flatMat lvl.h).map abs))
          (maxOfList ((flatMat lvl.d).map abs))) := by
  obtain ⟨hh, hd⟩ := hs
  have sh1 : (lvl.v.map (List.map abs)).map List.length =
      (lvl.h.map (List.map abs)).map List.length := by
    rw [map_length_map_abs, map_length_map_abs, hh]
  have sh2 : (List.zipWith (List.zipWith max) (lvl.v.map (List.map abs))
        (lvl.h.map (List.map abs))).map List.length =
      (lvl.d.map (List.map abs)).map List.length := by
    rw [map_length_zipWith_max sh1, map_length_map_abs, map_length_map_abs, hd]
  unfold elemMax3Abs
  rw [maxOfList_flatMat_zipWith sh2, maxOfList_flatMat_zipWith sh1,
    flatMat_map_abs, flatMat_map_abs, flatMat_map_abs, max_assoc]

theorem find_max_eq_global : ∀ P : List SubLevel,
    (∀ lvl ∈ P, WellShaped lvl) →
    find_max_maximum_coeffs P = global_max_abs_detail P
  | [], _ => rfl
  | lvl :: P, h => by
    have h1 := level_max_eq lvl (h lvl (List.mem_cons_self _ _))
    have h2 := find_max_eq_global P fun l hl => h l (List.mem_cons_of_mem _ hl)
    have hcons : global_max_abs_detail (lvl :: P) =
        max (max (max (maxOfList ((flatMat lvl.v).map abs))
            (maxOfList ((flatMat lvl.h).map abs)))
          (maxOfList ((flatMat lvl.d).map abs)))
          (global_max_abs_detail P) := by
      unfold global_max_abs_detail
      rw [List.foldr_cons, maxOfList_append, maxOfList_append, maxOfList_append]
    show max (maxOfList (flatMat (elemMax3Abs lvl))) (find_max_maximum_coeffs P) = _
    rw [h1, h2, hcons, ← max_assoc]

/-- Claim C4: for every raster, level and subband cell `(r, c)` within the
level's dimensions (and a nondegenerate extent), `_process_level` emits the
point `(left + c·(width/cols), top − r·(height/rows))` for that cell exactly
when `max(|v|,|h|,|d|) / normalizingCoefficient > 2^(-level+1) · τ`
(`levelScale level = 2^(-level+1)`), and the normalizing coefficient
computed by `find_max_maximum_coeffs` is the global maximum absolute detail
value over all levels and subbands. -/
theorem process_level_emission (M : MeshModel) (level : ℕ) (τ : ℚ) (r c : ℕ)
    (_hlev : 1 ≤ level)
    (hr : r < levelRows M level) (hc : c < levelCols M level)
    (hlr : M.boundsLeft < M.boundsRight) (hbt : M.boundsBottom < M.boundsTop)
    (hshape : ∀ lvl ∈ M.pyramid, WellShaped lvl) :
    ((M.boundsLeft +
          (c : ℚ) * ((M.boundsRight - M.boundsLeft) / (levelCols M level : ℚ)),
        M.boundsTop -
          (r : ℚ) * ((M.boundsTop - M.boundsBottom) / (levelRows M level : ℚ)))
        ∈ process_level M level τ ↔
      cellMaxAbs (M.pyramid.getD (level - 1) ⟨[], [], []⟩) r c /
          normalizing_coeff M > levelScale level * τ) ∧
    normalizing_coeff M = global_max_abs_detail M.pyramid := by
  refine ⟨?_, find_max_eq_global M.pyramid hshape⟩
  have hcols : (0 : ℚ) < (levelCols M level : ℚ) := by
    exact_mod_cast Nat.zero_lt_of_lt hc
  have hrows : (0 : ℚ) < (levelRows M level : ℚ) := by
    exact_mod_cast Nat.zero_lt_of_lt hr
  have hdx : (0 : ℚ) < (M.boundsRight - M.boundsLeft) / (levelCols M level : ℚ) :=
    div_pos (by linarith) hcols
  have hdy : (0 : ℚ) < (M.boundsTop - M.boundsBottom) / (levelRows M level : ℚ) :=
    div_pos (by linarith) hrows
  simp only [process_level, levelRows, levelCols, List.mem_map, List.mem_filter,
    mem_cellProd, decide_eq_true_eq] at *
  constructor
  · rintro ⟨⟨r', c'⟩, ⟨⟨hr', hc'⟩, hsig⟩, heq⟩
    rw [Prod.mk.injEq] at heq
    obtain ⟨h1, h2⟩ := heq
    have hc'' : (c' : ℚ) = (c : ℚ) :=
      mul_right_cancel₀ (ne_of_gt hdx) (by linarith)
    have hr'' : (r' : ℚ) = (r : ℚ) :=
      mul_right_cancel₀ (ne_of_gt hdy) (by linarith)
    have : c' = c := Nat.cast_injective hc''
    have : r' = r := Nat.cast_injective hr''
    subst_vars
    exact hsig
  · intro hsig
    exact ⟨(r, c), ⟨⟨hr, hc⟩, hsig⟩, rfl⟩

set_option maxRecDepth 100000 in
/-- Witness for C4: at `exCM`, level 1, cell `(1, 1)`, threshold `1/2`, the
point `(4, 1)` is emitted and the normalizing coefficient equals the global
maximum absolute detail. -/
theorem process_level_emission_witness :
    ((4 : ℚ), (1 : ℚ)) ∈ process_level exCM 1 (1 / 2) ∧
      normalizing_coeff exCM = global_max_abs_detail exCM.pyramid := by
  have h := process_level_emission exCM 1 (1 / 2) 1 1 (le_refl 1)
    (of_decide_eq_true (by with_unfolding_all rfl))
    (of_decide_eq_true (by with_unfolding_all rfl))
    (of_decide_eq_true (by with_unfolding_all rfl))
    (of_decide_eq_true (by with_unfolding_all rfl))
    (of_decide_eq_true (by with_unfolding_all rfl))
  refine ⟨?_, h.2⟩
  have hpt : ((exCM.boundsLeft +
        ((1 : ℕ) : ℚ) * ((exCM.boundsRight - exCM.boundsLeft) / (levelCols exCM 1 : ℚ)),
      exCM.boundsTop -
        ((1 : ℕ) : ℚ) * ((exCM.boundsTop - exCM.boundsBottom) / (levelRows exCM 1 : ℚ)))
      : Pt) = ((4 : ℚ), (1 : ℚ)) := by with_unfolding_all rfl
  exact hpt ▸ h.1.mpr (of_decide_eq_true (by with_unfolding_all rfl))

set_option maxRecDepth 100000 in
/-- Claim C1 (code bug): at `exCM` the interior (wavelet) point `(4, 1)`
has exactly the outlet's coordinates; `np.unique(..., return_index=True)`
keeps the code of the FIRST occurrence of each coordinate in the stacked
interior/boundary/stream/outlet order, so the surviving `(4, 1)` row
carries boundaryCode 0 and no row of the final table has boundaryCode 2:
the outlet's classification is silently dropped. -/
theorem outlet_code_lost_at_coincident_interior :
    extract_points_from_significant_details exCM (1 / 2) =
      .ok [(0, 0, 5, 3), (4, 1, 5, 0), (10, 0, 5, 3), (100, 100, 5, 0)] := by
  with_unfolding_all rfl

set_option maxRecDepth 100000 in
/-- Claim C3 (code bug): `flatM` models the 4×4 flat raster (all detail
coefficients zero, so `normalizing_coeff = 0`); at threshold `0.1` the
wavelet extractor yields the empty point set, but the pipeline does NOT
complete: `_generate_points_along_stream` immediately builds
`cKDTree(np.array(list(set())))`, and `cKDTree` raises `ValueError` on
that 1-dimensional empty array. -/
theorem flat_raster_extractor_empty_pipeline_error :
    normalizing_coeff flatM = 0 ∧
      significantCenters flatM (1 / 10) = [] ∧
      extract_points_from_significant_details flatM (1 / 10) =
        .error .valueError := by
  refine ⟨?_, ?_, ?_⟩ <;> with_unfolding_all rfl

/-- The normalized significance test rejects every cell of every level when
the normalizing coefficient is zero (all details are zero, `0/0` compares
false against a positive right-hand side in both the NumPy-`nan` and the
rational-junk reading), for every positive threshold. -/
theorem significantCenters_empty_of_flat (M : MeshModel) (τ : ℚ)
    (hτ : 0 < τ) (h0 : normalizing_coeff M = 0) :
    significantCenters M τ = [] := by
  unfold significantCenters
  have hlvl : ∀ level, process_level M level τ = [] := by
    intro level
    unfold process_level
    rw [List.map_eq_nil_iff, List.filter_eq_nil_iff]
    intro rc _
    rw [Bool.not_eq_true, decide_eq_false_iff_not, not_lt, h0, div_zero]
    have : (0 : ℚ) ≤ levelScale level := by unfold levelScale; positivity
    positivity
  have : (List.range M.pyramid.length).foldr
      (fun i acc => process_level M (i + 1) τ ++ acc) [] = ([] : List Pt) := by
    induction List.range M.pyramid.length with
    | nil => rfl
    | cons a l ih => simp [hlvl, ih]
  rw [this]
  rfl

theorem foldl_max_eq_top {t : List (WithTop ℚ)} :
    ∀ {a : WithTop ℚ}, (a = ⊤ ∨ ⊤ ∈ t) → t.foldl max a = ⊤ := by
  induction t with
  | nil =>
    rintro a (rfl | h)
    · rfl
    · simp at h
  | cons b t ih =>
    rintro a (rfl | h)
    · exact ih (Or.inl (max_eq_left le_top))
    · rcases List.mem_cons.mp h with rfl | h'
      · exact ih (Or.inl (max_eq_right le_top))
      · exact ih (Or.inr h')

theorem maxW_eq_top {l : List (WithTop ℚ)} (h : ⊤ ∈ l) : maxW l = ⊤ := by
  match l with
  | [] => simp at h
  | a :: t =>
    show t.foldl max a = ⊤
    rcases List.mem_cons.mp h with rfl | h'
    · exact foldl_max_eq_top (Or.inl rfl)
    · exact foldl_max_eq_top (Or.inr h')

theorem getD_eq_top_of_all : ∀ {s : List (WithTop ℚ)},
    (∀ x ∈ s, x = ⊤) → ∀ i : ℕ, s.getD i ⊤ = ⊤
  | [], _, _ => rfl
  | a :: _, h, 0 => h a (List.mem_cons_self _ _)
  | _ :: _, h, i + 1 =>
    getD_eq_top_of_all (fun x hx => h x (List.mem_cons_of_mem _ hx)) i

theorem medianW_eq_top {l : List (WithTop ℚ)} (h : ∀ x ∈ l, x = ⊤) :
    medianW l = ⊤ := by
  unfold medianW
  have hs : ∀ x ∈ List.insertionSort (· ≤ ·) l, x = ⊤ := fun x hx =>
    h x ((List.mem_insertionSort _).mp hx)
  split
  · exact getD_eq_top_of_all hs _
  · show halveW ((List.insertionSort (· ≤ ·) l).getD (l.length / 2 - 1) ⊤ +
      (List.insertionSort (· ≤ ·) l).getD (l.length / 2) ⊤) = ⊤
    rw [getD_eq_top_of_all hs, getD_eq_top_of_all hs, WithTop.top_add]
    exact WithTop.map_top _

theorem mem_flatten_foldr {α : Type} {x : α} :
    ∀ {L : List (List α)}, (x ∈ L.foldr (· ++ ·) []) ↔ ∃ l ∈ L, x ∈ l
  | [] => by simp
  | r :: L => by
    simp only [List.foldr_cons, List.mem_append, mem_flatten_foldr, List.mem_cons]
    constructor
    · rintro (h | ⟨l, hl, hx⟩)
      · exact ⟨r, Or.inl rfl, h⟩
      · exact ⟨l, Or.inr hl, hx⟩
    · rintro ⟨l, rfl | hl, hx⟩
      · exact Or.inl hx
      · exact Or.inr ⟨l, hl, hx⟩

theorem getD_replicate_self {a : WithTop ℚ} :
    ∀ (k i : ℕ), (List.replicate k a).getD i a = a
  | 0, _ => rfl
  | _ + 1, 0 => rfl
  | k + 1, i + 1 => getD_replicate_self k i

theorem kNearestSq_getD_top {pts : List Pt} {p : Pt} {n : ℕ}
    (hm : pts.length < n + 1) :
    (kNearestSq pts p (n + 1)).getD n ⊤ = ⊤ := by
  unfold kNearestSq
  have hlen : ((List.insertionSort (· ≤ ·) (pts.map (sqDist p))).take (n + 1)).length
      = pts.length := by
    rw [List.length_take, List.length_insertionSort, List.length_map]
    omega
  rw [List.getD_append_right]
  · rw [List.length_map, hlen]
    exact getD_replicate_self _ _
  · rw [List.length_map, hlen]
    omega

set_option maxRecDepth 10000 in
/-- Counterexample for C5: with only two interior points and the default
`n = 6`, the spacing estimator does not fail with any error — it returns a
value (an infinite median and maximum spacing, from the inf-padding of the
neighbour query).  No `DegenerateInputError` exists anywhere in the code. -/
theorem distance_to_nearest_n_small_returns_cx :
    distance_to_nearest_n [((0 : ℚ), (0 : ℚ)), (1, 0)] 6 = .ok (⊤, ⊤) := by
  with_unfolding_all rfl

/-- Amended C5: for a nonempty interior point set with fewer than `n + 1`
points, `_distance_to_nearest_n` returns `(∞, ∞)` (the `k = n+1` neighbour
query pads the missing neighbours with infinite distances; the per-rank
median over the last rank and the global maximum are then infinite) instead
of raising; only an empty set raises, and then a `ValueError` from
`cKDTree`, not a `DegenerateInputError`. -/
theorem distance_to_nearest_n_inf_on_small_input (pts : List Pt) (n : ℕ)
    (hne : pts ≠ []) (hlt : pts.length < n + 1) :
    distance_to_nearest_n pts n = .ok (⊤, ⊤) := by
  unfold distance_to_nearest_n
  rw [if_neg (by simpa using hne)]
  have hmed : maxW ((List.range (n + 1)).map fun j =>
      medianW ((pts.map fun p => kNearestSq pts p (n + 1)).map
        fun row => row.getD j ⊤)) = ⊤ := by
    apply maxW_eq_top
    refine List.mem_map.mpr ⟨n, List.mem_range.mpr (Nat.lt_succ_self n), ?_⟩
    apply medianW_eq_top
    intro x hx
    obtain ⟨row, hrow, rfl⟩ := List.mem_map.mp hx
    obtain ⟨p, _, rfl⟩ := List.mem_map.mp hrow
    exact kNearestSq_getD_top hlt
  have hmx : maxW ((pts.map fun p => kNearestSq pts p (n + 1)).foldr
      (· ++ ·) []) = ⊤ := by
    apply maxW_eq_top
    rw [mem_flatten_foldr]
    obtain ⟨p, hp⟩ := List.exists_mem_of_ne_nil pts hne
    refine ⟨kNearestSq pts p (n + 1), List.mem_map.mpr ⟨p, hp, rfl⟩, ?_⟩
    unfold kNearestSq
    refine List.mem_append_right _ (List.mem_replicate.mpr ⟨?_, rfl⟩)
    omega
  show Except.ok (_, _) = _
  rw [hmed, hmx]

/-- Witness for C5's amended statement at a concrete two-point set. -/
theorem distance_to_nearest_n_inf_witness :
    distance_to_nearest_n [((0 : ℚ), (0 : ℚ)), (2, 0)] 6 = .ok (⊤, ⊤) :=
  distance_to_nearest_n_inf_on_small_input _ 6 (by simp) (by simp)

set_option maxRecDepth 100000 in
/-- Counterexample for C7: a single straight stream polyline of length 10
(`exLine`) with raster resolution 2 and no interior point near the line
(one interior point far away at `(100, 100)`; the interior set cannot be
empty or the spatial index raises) produces exactly TWO stream points — the
endpoints — not the claimed six: the walk inserts intermediate points only
while `distance > dis_interior`, and with the nearest interior point
farther than the whole line the loop never runs. -/
theorem stream_far_interior_two_points_cx :
    generate_points_along_stream 2 [exLine] [((100 : ℚ), (100 : ℚ))] =
      .ok [(0, 0), (10, 0)] := by
  with_unfolding_all rfl

/-- Amended C7: when every interior point is farther than `res` from every
densified vertex (no splice) and the nearest interior point is at least as
far from the line's start as the line's end is, the stream point inserter
emits exactly the two endpoints for that line. -/
theorem stream_two_points_of_far_interior (res : ℚ) (line : StreamLine)
    (coords : List Pt) (b : Pt) (rest : List Pt)
    (hxy : densify_line res line = b :: rest)
    (hne : coords ≠ [])
    (hfar : ∀ p ∈ coords, res ^ 2 < minSqDistTo (b :: rest) p)
    (hend : sqDist b ((b :: rest).getLastD (0, 0)) ≤ minSqDistTo coords b) :
    generate_points_along_stream res [line] coords =
      .ok [b, (b :: rest).getLastD (0, 0)] := by
  have hfil : coords.filter
      (fun p => decide (minSqDistTo (b :: rest) p ≤ res ^ 2)) = [] := by
    rw [List.filter_eq_nil_iff]
    intro p hp
    simp only [decide_eq_true_eq, not_le]
    exact hfar p hp
  have hfil2 : coords.filter
      (fun p => ! decide (minSqDistTo (b :: rest) p ≤ res ^ 2)) = coords := by
    rw [List.filter_eq_self]
    intro p hp
    simp only [Bool.not_eq_true', decide_eq_false_iff_not, not_le]
    exact hfar p hp
  have hgl : gen_line res coords line =
      .ok ([b, (b :: rest).getLastD (0, 0)], coords) := by
    unfold gen_line
    rw [hxy]
    dsimp only
    rw [hfil, hfil2]
    simp only [List.reverse_nil, List.isEmpty_nil, Bool.not_true,
      Bool.false_and, Bool.false_eq_true, if_false]
    have hw : stream_walk (b :: rest) ((b :: rest).getLastD (0, 0)) coords
        ((b :: rest).length + 1) b 0 (b :: []) = .ok [b] := by
      unfold stream_walk
      rw [if_neg (not_lt.mpr hend)]
    rw [hw]
    rfl
  unfold generate_points_along_stream
  rw [if_neg (by simpa using hne)]
  unfold gen_lines
  rw [hgl]
  unfold gen_lines
  rfl

set_option maxRecDepth 100000 in
/-- Witness for the amended C7 on `exLine` with one far interior point. -/
theorem stream_two_points_of_far_interior_witness :
    generate_points_along_stream 2 [exLine] [((50 : ℚ), (50 : ℚ))] =
      .ok [(0, 0), (10, 0)] := by
  have h := stream_two_points_of_far_interior 2 exLine [((50 : ℚ), (50 : ℚ))]
    (0, 0) [(2, 0), (4, 0), (6, 0), (8, 0), (10, 0)]
    (by with_unfolding_all rfl)
    (by simp)
    (of_decide_eq_true (by with_unfolding_all rfl))
    (of_decide_eq_true (by with_unfolding_all rfl))
  have hlast : (((0 : ℚ), (0 : ℚ)) ::
      [((2 : ℚ), (0 : ℚ)), (4, 0), (6, 0), (8, 0), (10, 0)]).getLastD (0, 0) =
      ((10 : ℚ), (0 : ℚ)) := by with_unfolding_all rfl
  rw [hlast] at h
  exact h

theorem zip_replicate_eq_map {α : Type} (c : ℚ) :
    ∀ l : List α, l.zip (List.replicate l.length c) = l.map fun a => (a, c)
  | [] => rfl
  | a :: t => by
    show (a, c) :: t.zip (List.replicate t.length c) = (a, c) :: t.map _
    rw [zip_replicate_eq_map c t]

/-- Structure of a successful merger input (`extract` lines 356-371): the
stacked rows are the contained interior points with code 0, the
not-contained boundary candidates with code 1, the stream points with
code 3, and the outlet with code 2, in that order. -/
theorem mergerInput_decomp (M : MeshModel) (τ : ℚ) (z : List (Pt × ℚ))
    (h : mergerInput M τ = .ok z) :
    ∃ spts md,
      generate_points_along_stream M.ta M.streamLines
          (significantCenters M τ) = .ok spts ∧
      distance_to_nearest_n (significantCenters M τ) 6 = .ok md ∧
      z = ((significantCenters M τ).filter M.containsOrig).map
            (fun p => (p, (0 : ℚ))) ++
          ((M.boundaryCandidates md.1).filter
            (fun p => ! M.containsOrig p)).map (fun p => (p, (1 : ℚ))) ++
          spts.map (fun p => (p, (3 : ℚ))) ++ [(M.outlet, (2 : ℚ))] := by
  unfold mergerInput at h
  dsimp only at h
  cases hg : generate_points_along_stream M.ta M.streamLines
      (significantCenters M τ) with
  | error e =>
    rw [hg] at h
    exact absurd h (by simp)
  | ok spts =>
    rw [hg] at h
    dsimp only at h
    cases hd : distance_to_nearest_n (significantCenters M τ) 6 with
    | error e =>
      rw [hd] at h
      exact absurd h (by simp)
    | ok md =>
      rw [hd] at h
      refine ⟨spts, md, rfl, rfl, ?_⟩
      dsimp only at h
      rw [Except.ok.injEq] at h
      subst h
      unfold filter_coords_within_geometry
      dsimp only
      rw [List.zip_append (by simp), List.zip_append (by simp),
        List.zip_append (by simp), zip_replicate_eq_map, zip_replicate_eq_map,
        zip_replicate_eq_map]
      rfl

/-- Counterexample for C2: at `exCM` with threshold `1/2`, the interior
point `(4, 1)` lies within the raster resolution of the densified stream
line; it is spliced into the stream output, but the reduction of the
interior working set is local to `_generate_points_along_stream`, so the
coordinate `(4, 1)` reaches the merger BOTH as an interior row with
boundaryCode 0 and as a stream row with boundaryCode 3. -/
theorem interior_and_stream_share_coordinate_cx :
    mergerInput exCM (1 / 2) = .ok exMergerZ ∧
      (((4 : ℚ), (1 : ℚ)), (0 : ℚ)) ∈ exMergerZ ∧
      (((4 : ℚ), (1 : ℚ)), (3 : ℚ)) ∈ exMergerZ := by
  refine ⟨?_, ?_, ?_⟩
  · set_option maxRecDepth 100000 in with_unfolding_all rfl
  · exact of_decide_eq_true (by with_unfolding_all rfl)
  · exact of_decide_eq_true (by with_unfolding_all rfl)

/-- Amended C2: an interior point spliced into the stream output is
removed only from the stream stage's local working copy; the caller's
interior set is unchanged, so a watershed-contained interior point that
also appears among the stream points reaches the merger both with
boundaryCode 0 and with boundaryCode 3 (the later `np.unique` then keeps
the interior code, since the interior row comes first). -/
theorem close_interior_point_dual_coded (M : MeshModel) (τ : ℚ) (p : Pt)
    (spts : List Pt) (z : List (Pt × ℚ))
    (hg : generate_points_along_stream M.ta M.streamLines
      (significantCenters M τ) = .ok spts)
    (hp3 : p ∈ spts)
    (hp0 : p ∈ significantCenters M τ)
    (hc : M.containsOrig p = true)
    (hz : mergerInput M τ = .ok z) :
    (p, (0 : ℚ)) ∈ z ∧ (p, (3 : ℚ)) ∈ z := by
  obtain ⟨spts', md, hg', _, rfl⟩ := mergerInput_decomp M τ z hz
  rw [hg] at hg'
  injection hg' with hsp
  subst hsp
  constructor
  · apply List.mem_append_left
    apply List.mem_append_left
    apply List.mem_append_left
    exact List.mem_map.mpr ⟨p, List.mem_filter.mpr ⟨hp0, hc⟩, rfl⟩
  · apply List.mem_append_left
    apply List.mem_append_right
    exact List.mem_map.mpr ⟨p, hp3, rfl⟩

set_option maxRecDepth 100000 in
/-- Witness for the amended C2 at `exCM`: `(4, 1)` is dual-coded. -/
theorem close_interior_point_dual_coded_witness :
    (((4 : ℚ), (1 : ℚ)), (0 : ℚ)) ∈ exMergerZ ∧
      (((4 : ℚ), (1 : ℚ)), (3 : ℚ)) ∈ exMergerZ :=
  close_interior_point_dual_coded exCM (1 / 2) (4, 1)
    [(0, 0), (4, 1), (10, 0)] exMergerZ
    (by with_unfolding_all rfl)
    (of_decide_eq_true (by with_unfolding_all rfl))
    (of_decide_eq_true (by with_unfolding_all rfl))
    (by with_unfolding_all rfl)
    (by with_unfolding_all rfl)

theorem mem_of_mem_npUniqueRows {z : List (Pt × ℚ)} {x : Pt × ℚ}
    (h : x ∈ npUniqueRows z) : x ∈ z :=
  mem_of_mem_firstDedupByAux Prod.fst
    (((List.perm_insertionSort rowLe _).mem_iff).mp h)

/-- Claim C6: every boundaryCode-1 row of the final merged table has
coordinates on which the point-in-polygon test against the original
(unbuffered) watershed polygon is negative: the boundary candidates that
test positive are discarded by `_filter_coords_within_geometry`, and a
surviving code-1 row can only originate from a kept boundary candidate. -/
theorem boundary_points_outside_original_watershed (M : MeshModel) (τ : ℚ)
    (rows : List (ℚ × ℚ × ℚ × ℚ))
    (hrows : extract_points_from_significant_details M τ = .ok rows)
    (row : ℚ × ℚ × ℚ × ℚ) (hmem : row ∈ rows) (hcode : row.2.2.2 = 1) :
    M.containsOrig (row.1, row.2.1) = false := by
  unfold extract_points_from_significant_details at hrows
  cases hz : mergerInput M τ with
  | error e =>
    rw [hz] at hrows
    exact absurd hrows (by simp)
  | ok z =>
    rw [hz] at hrows
    dsimp only at hrows
    rw [Except.ok.injEq] at hrows
    subst hrows
    obtain ⟨pc, hpc, rfl⟩ := List.mem_map.mp hmem
    have hc1 : pc.2 = 1 := hcode
    have hpz : pc ∈ z := mem_of_mem_npUniqueRows hpc
    obtain ⟨spts, md, _, _, rfl⟩ := mergerInput_decomp M τ z hz
    show M.containsOrig (pc.1.1, pc.1.2) = false
    rw [Prod.mk.eta]
    rcases List.mem_append.mp hpz with h1 | h4
    · rcases List.mem_append.mp h1 with h2 | h3
      · rcases List.mem_append.mp h2 with hA | hB
        · obtain ⟨q, _, hq⟩ := List.mem_map.mp hA
          rw [← hq] at hc1
          exact absurd hc1 (by norm_num)
        · obtain ⟨q, hqf, hq⟩ := List.mem_map.mp hB
          obtain ⟨_, hkeep⟩ := List.mem_filter.mp hqf
          rw [← hq]
          simpa using hkeep
      · obtain ⟨q, _, hq⟩ := List.mem_map.mp h3
        rw [← hq] at hc1
        exact absurd hc1 (by norm_num)
    · rcases List.mem_singleton.mp h4 with hq
      rw [hq] at hc1
      exact absurd hc1 (by norm_num)

set_option maxRecDepth 100000 in
/-- Witness for C6 at `exCM2`: the kept boundary candidate `(200, 200)`
(code 1 in the final table) is outside the watershed test `x ≤ 150`. -/
theorem boundary_points_outside_original_watershed_witness :
    exCM2.containsOrig (200, 200) = false :=
  boundary_points_outside_original_watershed exCM2 (1 / 2)
    [(0, 0, 5, 3), (4, 1, 5, 0), (10, 0, 5, 3), (100, 100, 5, 0),
      (200, 200, 5, 1)]
    (by with_unfolding_all rfl)
    ((200 : ℚ), (200 : ℚ), (5 : ℚ), (1 : ℚ))
    (of_decide_eq_true (by with_unfolding_all rfl))
    rfl

/-- Claim C10: a successful final merged point table is sorted in strictly
ascending lexicographic (x, y) order — the order produced by
`np.unique(..., axis=0)` — not in the interior/boundary/stream/outlet
concatenation order in which the points were produced. -/
theorem merged_rows_sorted_lex (M : MeshModel) (τ : ℚ)
    (rows : List (ℚ × ℚ × ℚ × ℚ))
    (hrows : extract_points_from_significant_details M τ = .ok rows) :
    (rows.map fun r => (r.1, r.2.1)).Pairwise lexLt := by
  unfold extract_points_from_significant_details at hrows
  cases hz : mergerInput M τ with
  | error e =>
    rw [hz] at hrows
    exact absurd hrows (by simp)
  | ok z =>
    rw [hz] at hrows
    dsimp only at hrows
    rw [Except.ok.injEq] at hrows
    subst hrows
    have hsorted : (npUniqueRows z).Pairwise rowLe :=
      List.sorted_insertionSort rowLe (firstDedupBy Prod.fst z)
    have hne : (npUniqueRows z).Pairwise fun a b => a.1 ≠ b.1 :=
      ((List.perm_insertionSort rowLe (firstDedupBy Prod.fst z)).pairwise_iff
        (fun h e => h e.symm)).mpr (pairwise_key_ne_firstDedupByAux Prod.fst z [])
    rw [List.map_map, List.pairwise_map]
    refine (hsorted.and hne).imp ?_
    rintro a b ⟨hle, hne'⟩
    rcases hle with hlt | ⟨heq, hy⟩
    · exact Or.inl hlt
    · refine Or.inr ⟨heq, lt_of_le_of_ne hy ?_⟩
      intro hyeq
      exact hne' (Prod.ext heq hyeq)

set_option maxRecDepth 100000 in
/-- Witness for C10: the coordinates of the final table at `exCM`,
threshold `1/2`, are strictly lexicographically increasing. -/
theorem merged_rows_sorted_lex_witness :
    ([((0 : ℚ), (0 : ℚ)), (4, 1), (10, 0), (100, 100)] : List Pt).Pairwise
      lexLt := by
  have h := merged_rows_sorted_lex exCM (1 / 2)
    [(0, 0, 5, 3), (4, 1, 5, 0), (10, 0, 5, 3), (100, 100, 5, 0)]
    (by with_unfolding_all rfl)
  simpa using h

theorem locate_frac_bounds (step o : ℚ) (m : ℕ) (q : ℚ) (hm : 2 ≤ m)
    (h0 : 0 ≤ (q - o) / step) (h1 : (q - o) / step ≤ (m : ℚ) - 1) :
    0 ≤ (locate step o m q).2 ∧ (locate step o m q).2 ≤ 1 := by
  unfold locate
  dsimp only
  set u := (q - o) / step with hu
  have hfl0 : (0 : ℤ) ≤ ⌊u⌋ := Int.floor_nonneg.mpr h0
  have hm2 : (0 : ℤ) ≤ (m : ℤ) - 2 := by omega
  have hmin0 : (0 : ℤ) ≤ min ((m : ℤ) - 2) ⌊u⌋ := le_min hm2 hfl0
  rw [max_eq_right hmin0]
  by_cases hcase : ⌊u⌋ ≤ (m : ℤ) - 2
  · rw [min_eq_right hcase]
    constructor
    · have := Int.floor_le u
      linarith
    · have := Int.lt_floor_add_one u
      push_cast at this
      linarith
  · push_neg at hcase
    rw [min_eq_left (le_of_lt hcase)]
    have hfl : (m : ℤ) - 1 ≤ ⌊u⌋ := by omega
    have hge : ((m : ℚ) - 1) ≤ u := by
      have h2 := Int.floor_le u
      have h3 : ((m : ℚ) - 1) ≤ (⌊u⌋ : ℚ) := by exact_mod_cast hfl
      linarith
    have hueq : u = (m : ℚ) - 1 := le_antisymm h1 hge
    rw [hueq]
    push_cast
    constructor <;> linarith

theorem convex_combo_bounds {t a b : ℚ} (h0 : 0 ≤ t) (h1 : t ≤ 1) :
    min a b ≤ (1 - t) * a + t * b ∧ (1 - t) * a + t * b ≤ max a b := by
  rcases le_total a b with hab | hab
  · rw [min_eq_left hab, max_eq_right hab]
    constructor <;> nlinarith
  · rw [min_eq_right hab, max_eq_left hab]
    constructor <;> nlinarith

/-- Amended C8: the interpolator is total (it never fails), and for every
point whose query coordinates fall within the grid-NODE hull
(`0 ≤ (x−tc)/ta ≤ width−1`, `0 ≤ (y−tf)/te ≤ height−1` — for a north-up
raster `te < 0` this is the raster band spanned by the cell-corner nodes),
the bilinear value lies between the min and max of the four surrounding
node values.  Outside the node hull — including points beyond the raster
extent — the value is the LINEAR EXTRAPOLATION of the nearest cell's
bilinear surface (`fill_value=None`), which is not clamped to the edge
value (see the counterexample). -/
theorem bilinear_within_cell_bounds (M : MeshModel) (p : Pt)
    (hw : 2 ≤ (M.data.headD []).length) (hh : 2 ≤ M.data.length)
    (hx0 : 0 ≤ (p.1 - M.tc) / M.ta)
    (hx1 : (p.1 - M.tc) / M.ta ≤ ((M.data.headD []).length : ℚ) - 1)
    (hy0 : 0 ≤ (p.2 - M.tf) / M.te)
    (hy1 : (p.2 - M.tf) / M.te ≤ (M.data.length : ℚ) - 1) :
    min (min (getCell M.data (locate M.te M.tf M.data.length p.2).1
          (locate M.ta M.tc (M.data.headD []).length p.1).1)
        (getCell M.data (locate M.te M.tf M.data.length p.2).1
          ((locate M.ta M.tc (M.data.headD []).length p.1).1 + 1)))
      (min (getCell M.data ((locate M.te M.tf M.data.length p.2).1 + 1)
          (locate M.ta M.tc (M.data.headD []).length p.1).1)
        (getCell M.data ((locate M.te M.tf M.data.length p.2).1 + 1)
          ((locate M.ta M.tc (M.data.headD []).length p.1).1 + 1)))
      ≤ bilinear M p ∧
    bilinear M p ≤
      max (max (getCell M.data (locate M.te M.tf M.data.length p.2).1
          (locate M.ta M.tc (M.data.headD []).length p.1).1)
        (getCell M.data (locate M.te M.tf M.data.length p.2).1
          ((locate M.ta M.tc (M.data.headD []).length p.1).1 + 1)))
      (max (getCell M.data ((locate M.te M.tf M.data.length p.2).1 + 1)
          (locate M.ta M.tc (M.data.headD []).length p.1).1)
        (getCell M.data ((locate M.te M.tf M.data.length p.2).1 + 1)
          ((locate M.ta M.tc (M.data.headD []).length p.1).1 + 1))) := by
  obtain ⟨htx0, htx1⟩ := locate_frac_bounds M.ta M.tc _ p.1 hw hx0 hx1
  obtain ⟨hty0, hty1⟩ := locate_frac_bounds M.te M.tf _ p.2 hh hy0 hy1
  unfold bilinear
  dsimp only
  have hX := @convex_combo_bounds (locate M.ta M.tc (M.data.headD []).length p.1).2
    (getCell M.data (locate M.te M.tf M.data.length p.2).1
      (locate M.ta M.tc (M.data.headD []).length p.1).1)
    (getCell M.data (locate M.te M.tf M.data.length p.2).1
      ((locate M.ta M.tc (M.data.headD []).length p.1).1 + 1)) htx0 htx1
  have hY := @convex_combo_bounds (locate M.ta M.tc (M.data.headD []).length p.1).2
    (getCell M.data ((locate M.te M.tf M.data.length p.2).1 + 1)
      (locate M.ta M.tc (M.data.headD []).length p.1).1)
    (getCell M.data ((locate M.te M.tf M.data.length p.2).1 + 1)
      ((locate M.ta M.tc (M.data.headD []).length p.1).1 + 1)) htx0 htx1
  have hV := @convex_combo_bounds (locate M.te M.tf M.data.length p.2).2
    ((1 - (locate M.ta M.tc (M.data.headD []).length p.1).2) *
        getCell M.data (locate M.te M.tf M.data.length p.2).1
          (locate M.ta M.tc (M.data.headD []).length p.1).1 +
      (locate M.ta M.tc (M.data.headD []).length p.1).2 *
        getCell M.data (locate M.te M.tf M.data.length p.2).1
          ((locate M.ta M.tc (M.data.headD []).length p.1).1 + 1))
    ((1 - (locate M.ta M.tc (M.data.headD []).length p.1).2) *
        getCell M.data ((locate M.te M.tf M.data.length p.2).1 + 1)
          (locate M.ta M.tc (M.data.headD []).length p.1).1 +
      (locate M.ta M.tc (M.data.headD []).length p.1).2 *
        getCell M.data ((locate M.te M.tf M.data.length p.2).1 + 1)
          ((locate M.ta M.tc (M.data.headD []).length p.1).1 + 1))
    hty0 hty1
  constructor
  · refine le_trans (le_min (le_trans (min_le_left _ _) hX.1)
      (le_trans (min_le_right _ _) hY.1)) ?_
    exact hV.1
  · refine le_trans hV.2 ?_
    exact max_le (le_trans hX.2 (le_max_left _ _))
      (le_trans hY.2 (le_max_right _ _))

set_option maxRecDepth 10000 in
/-- Counterexample for C8: on the `2 × 2` grid `exM8b` (all elevations in
`[0, 1]`), the point `(3, 1/2)` lies outside the raster extent; the
interpolator extrapolates the edge cell's bilinear surface linearly and
returns 3 — strictly greater than every raster value, so it is NOT the
"nearest valid interpolation cell edge" value the claim describes. -/
theorem bilinear_extrapolation_exceeds_data_cx :
    bilinear exM8b (3, 1 / 2) = 3 ∧
      maxOfList (flatMat exM8b.data) < bilinear exM8b (3, 1 / 2) := by
  constructor
  · with_unfolding_all rfl
  · exact of_decide_eq_true (by with_unfolding_all rfl)

set_option maxRecDepth 10000 in
/-- Witness for the amended C8 at `exM8a`, point `(1/2, 1/2)`: the four
surrounding nodes are `0, 1, 2, 3`, so the interpolated value lies in
`[0, 3]`. -/
theorem bilinear_within_cell_bounds_witness :
    (0 : ℚ) ≤ bilinear exM8a (1 / 2, 1 / 2) ∧
      bilinear exM8a (1 / 2, 1 / 2) ≤ 3 := by
  have h := bilinear_within_cell_bounds exM8a (1 / 2, 1 / 2)
    (of_decide_eq_true (by with_unfolding_all rfl))
    (of_decide_eq_true (by with_unfolding_all rfl))
    (of_decide_eq_true (by with_unfolding_all rfl))
    (of_decide_eq_true (by with_unfolding_all rfl))
    (of_decide_eq_true (by with_unfolding_all rfl))
    (of_decide_eq_true (by with_unfolding_all rfl))
  obtain ⟨h1, h2⟩ := h
  have e1 : min (min (getCell exM8a.data
        (locate exM8a.te exM8a.tf exM8a.data.length (1 / 2 : ℚ)).1
        (locate exM8a.ta exM8a.tc (exM8a.data.headD []).length (1 / 2 : ℚ)).1)
      (getCell exM8a.data
        (locate exM8a.te exM8a.tf exM8a.data.length (1 / 2 : ℚ)).1
        ((locate exM8a.ta exM8a.tc (exM8a.data.headD []).length (1 / 2 : ℚ)).1 + 1)))
      (min (getCell exM8a.data
        ((locate exM8a.te exM8a.tf exM8a.data.length (1 / 2 : ℚ)).1 + 1)
        (locate exM8a.ta exM8a.tc (exM8a.data.headD []).length (1 / 2 : ℚ)).1)
      (getCell exM8a.data
        ((locate exM8a.te exM8a.tf exM8a.data.length (1 / 2 : ℚ)).1 + 1)
        ((locate exM8a.ta exM8a.tc (exM8a.data.headD []).length (1 / 2 : ℚ)).1 + 1)))
      = (0 : ℚ) := by with_unfolding_all rfl
  have e2 : max (max (getCell exM8a.data
        (locate exM8a.te exM8a.tf exM8a.data.length (1 / 2 : ℚ)).1
        (locate exM8a.ta exM8a.tc (exM8a.data.headD []).length (1 / 2 : ℚ)).1)
      (getCell exM8a.data
        (locate exM8a.te exM8a.tf exM8a.data.length (1 / 2 : ℚ)).1
        ((locate exM8a.ta exM8a.tc (exM8a.data.headD []).length (1 / 2 : ℚ)).1 + 1)))
      (max (getCell exM8a.data
        ((locate exM8a.te exM8a.tf exM8a.data.length (1 / 2 : ℚ)).1 + 1)
        (locate exM8a.ta exM8a.tc (exM8a.data.headD []).length (1 / 2 : ℚ)).1)
      (getCell exM8a.data
        ((locate exM8a.te exM8a.tf exM8a.data.length (1 / 2 : ℚ)).1 + 1)
        ((locate exM8a.ta exM8a.tc (exM8a.data.headD []).length (1 / 2 : ℚ)).1 + 1)))
      = (3 : ℚ) := by with_unfolding_all rfl
  exact ⟨e1 ▸ h1, e2 ▸ h2⟩
